import Mathlib

/-!
Shallow embedding of the video-upload backend
(`src/video_upload_backend/src/api/main.py`).

The core of the program is:
  * `_safe_destination_filename` : builds a unique destination name from a
    timestamp and a random hex token, preserving the lower-cased extension
    computed by Python's `os.path.splitext`;
  * `_enforce_file_size` : reads the incoming stream in chunks, keeps a
    running byte total, writes accepted chunks to a temp file, aborts with
    HTTP 413 as soon as the total exceeds `MAX_FILE_SIZE_BYTES`, converts
    any other read/write error to HTTP 500, and deletes the temp file on
    every error path;
  * `upload_video` : orchestrates streaming, naming, and the atomic
    `os.replace` publish step, cleaning up the temp file when the rename
    fails, and assembles the `UploadResponse`.

Modelling choices:
  * bytes are `Nat`, byte strings are `List Nat`;
  * the incoming stream is a list of `ReadEvent`s: each successful
    `await file.read(chunk_size)` call yields `ReadEvent.chunk data`
    (an empty `data` means the EOF sentinel `b""`), and a read that raises
    an I/O error is `ReadEvent.fail`; the end of the event list also means
    EOF (the stream yields `b""` forever afterwards);
  * disk-write failures are modelled by an optional index `diskFailAt`:
    the write with that ordinal raises an I/O error (a failing write
    writes nothing);
  * a publish failure of `os.replace` is the boolean `renameFails`;
  * the wall clock and the uuid module are nondeterministic inputs, so the
    timestamp string and the random hex token are explicit parameters;
  * the filesystem footprint of one operation is tracked explicitly:
    whether the temp file still exists, and the published file (final name
    and byte content) if any.
-/

/-- The 500 MB upload limit, `MAX_FILE_SIZE_BYTES = 500 * 1024 * 1024` in the
source. -/
def MAX_FILE_SIZE_BYTES : Nat := 500 * 1024 * 1024

/-- Destination directory; the source reads `os.getenv("UPLOAD_DIR", "./upload")`
once at import time.  We model the default value; no claim depends on the
actual string. -/
def UPLOAD_DIR : String := "./upload"

/-- Size passed to each `file.read` call (`chunk_size = 1024 * 1024`).  The
loop's logic is independent of this bound: each read returns at most this
many bytes, and our `ReadEvent.chunk` carries whatever the read returned. -/
def CHUNK_SIZE : Nat := 1024 * 1024

/-- One `await file.read(chunk_size)` interaction with the incoming stream:
either it returns a byte string (`chunk`, possibly empty = EOF sentinel) or
it raises an I/O error (`fail`). -/
inductive ReadEvent where
  | chunk (data : List Nat)
  | fail
deriving DecidableEq, Repr

/-- Total number of bytes carried by a list of byte-string chunks. -/
def chunksSum (cs : List (List Nat)) : Nat := (cs.map List.length).sum

/-- Outcome of the `while True` read loop inside `_enforce_file_size`:
normal termination with the accumulated total, the size-limit abort
(HTTP 413 raised), or a read/write I/O error. -/
inductive LoopRes where
  | ok (total : Nat)
  | tooLarge
  | ioError
deriving DecidableEq, Repr

/-- State when the read loop of `_enforce_file_size` exits:
its result, the read events it never consumed, the byte content of the temp
file at that moment, and (ghost instrumentation) the temp file's size after
each completed `out.write(chunk)` call. -/
structure LoopOut where
  res : LoopRes
  remaining : List ReadEvent
  written : List Nat
  trace : List Nat
deriving DecidableEq, Repr

/-- The `while True` loop of `_enforce_file_size`:
read a chunk; break on the empty chunk; add its length to `total`; raise
HTTP 413 (stop reading) if `total` now exceeds `MAX_FILE_SIZE_BYTES`;
otherwise write the chunk to the temp file (which may raise an I/O error).
Arguments: the disk-failure index, the unread events, the ordinal of the
next write, the running total, and the temp file content so far. -/
def enforce_file_size_loop (diskFailAt : Option Nat) :
    List ReadEvent → Nat → Nat → List Nat → LoopOut
  | [], _, total, written => ⟨LoopRes.ok total, [], written, []⟩
  | ReadEvent.fail :: rest, _, _, written => ⟨LoopRes.ioError, rest, written, []⟩
  | ReadEvent.chunk d :: rest, wIdx, total, written =>
    if d = [] then
      ⟨LoopRes.ok total, rest, written, []⟩
    else
      let total' := total + d.length
      if MAX_FILE_SIZE_BYTES < total' then
        ⟨LoopRes.tooLarge, rest, written, []⟩
      else if diskFailAt = some wIdx then
        ⟨LoopRes.ioError, rest, written, []⟩
      else
        let out := enforce_file_size_loop diskFailAt rest (wIdx + 1) total' (written ++ d)
        { out with trace := (written ++ d).length :: out.trace }

/-- Error kinds the operation can end with, as surfaced by the source:
HTTP 413 for the size violation, HTTP 500 for a stream read/write failure
(`"Failed to receive file data"`), HTTP 500 for an `os.replace` failure
(`"Failed to save file"`). -/
inductive ErrKind where
  | payloadTooLarge
  | ioFailure
  | storageFailure
deriving DecidableEq, Repr

/-- HTTP status code attached to each error kind in the source. -/
def errStatusCode : ErrKind → Nat
  | ErrKind.payloadTooLarge => 413
  | ErrKind.ioFailure => 500
  | ErrKind.storageFailure => 500

/-- Result of `_enforce_file_size`: on success the total and the temp file
content (the temp file exists on disk); on error the kind, after the
`except` blocks have removed the temp file. -/
structure EnforceOut where
  result : Except ErrKind (Nat × List Nat)
  tmpExists : Bool
deriving Repr

/-- Model of `_enforce_file_size`: opens a fresh temp file, runs the read loop, and
on `HTTPException` (413) or any other exception removes the temp file and
(re-)raises; on success returns the total with the temp file in place. -/
def enforce_file_size (diskFailAt : Option Nat) (events : List ReadEvent) : EnforceOut :=
  let out := enforce_file_size_loop diskFailAt events 0 0 []
  match out.res with
  | LoopRes.ok total => ⟨Except.ok (total, out.written), true⟩
  | LoopRes.tooLarge => ⟨Except.error ErrKind.payloadTooLarge, false⟩
  | LoopRes.ioError => ⟨Except.error ErrKind.ioFailure, false⟩

/-- Last index of a character in a character list (Python `str.rfind`,
returning `none` instead of `-1`). -/
def rfindIdx (c : Char) : List Char → Option Nat
  | [] => none
  | a :: as =>
    match rfindIdx c as with
    | some i => some (i + 1)
    | none => if a = c then some 0 else none

/-- Python `os.path.splitext` (posix flavour, as executed by the source):
split at the last dot, unless that dot lies at or before the last path
separator, or every character of the final path component before that dot
is itself a dot (so dotfiles such as `".bashrc"` get an empty extension). -/
def splitext (p : String) : String × String :=
  let cs := p.data
  match rfindIdx '.' cs with
  | none => (p, "")
  | some ei =>
    let fi := match rfindIdx '/' cs with
      | none => 0
      | some si => si + 1
    if fi ≤ ei ∧ ((cs.drop fi).take (ei - fi)).any (fun ch => ch ≠ '.') then
      (String.mk (cs.take ei), String.mk (cs.drop ei))
    else (p, "")

/-- Python `str.lower` restricted to ASCII, which is all the source ever
feeds it in the claims under study. -/
def strLower (s : String) : String := String.mk (s.data.map Char.toLower)

/-- Model of `_safe_destination_filename`: split off the extension,
lower-case it, discard the base, and return the timestamp, an underscore,
the token, then the extension, where `ts` is the UTC second-resolution
timestamp and `unique` is `uuid.uuid4().hex`. -/
def safe_destination_filename (originalName ts unique : String) : String :=
  let ext := (splitext originalName).2
  let ext := strLower ext
  ts ++ "_" ++ unique ++ ext

/-- Python's `a or b` for an optional string `a`: the default is used when
`a` is `None` or the empty (falsy) string. -/
def pyOrStr (a : Option String) (b : String) : String :=
  match a with
  | none => b
  | some s => if s = "" then b else s

/-- The incoming multipart file: `file.filename` and `file.content_type`
are optional strings, the body is the stream of read events. -/
structure UploadRequest where
  filename : Option String
  contentType : Option String
  events : List ReadEvent
deriving DecidableEq, Repr

/-- The `UploadResponse` pydantic model of the source. -/
structure UploadResponse where
  filename : String
  saved_as : String
  size_bytes : Nat
  content_type : Option String
  upload_dir : String
deriving DecidableEq, Repr

/-- Filesystem footprint of one finished operation: whether the temp file
is still on disk, and the published destination file (name and content). -/
structure FsOutcome where
  tmpExists : Bool
  destFile : Option (String × List Nat)
deriving DecidableEq, Repr

/-- Result of one `upload_video` call: the HTTP-level result and the
filesystem footprint. -/
structure UploadOut where
  result : Except ErrKind UploadResponse
  fs : FsOutcome
deriving Repr

/-- The no-op content-type sanity check of the source (computed, then
`pass`ed on): true when the declared type starts with `"video/"` or is
`"application/octet-stream"` or empty.  Kept because the claims discuss
its advisory nature; it influences nothing. -/
def contentTypeAllowed (contentType : String) : Bool :=
  contentType.startsWith "video/" ||
    contentType = "application/octet-stream" || contentType = ""

/-- Model of `upload_video`: stream-read under the size limit into a temp file, name
the destination via `_safe_destination_filename` (falling back to
`"upload.bin"` for an absent or empty original name), `os.replace` the temp
file into place (removing the temp file and raising HTTP 500 if the rename
fails), and assemble the `UploadResponse`.  `ts` and `unique` stand for the
timestamp and the uuid hex drawn during the call. -/
def upload_video (req : UploadRequest) (diskFailAt : Option Nat)
    (renameFails : Bool) (ts unique : String) : UploadOut :=
  let contentType := req.contentType.getD ""
  let _ := contentTypeAllowed contentType
  let e := enforce_file_size diskFailAt req.events
  match e.result with
  | Except.error k => ⟨Except.error k, ⟨e.tmpExists, none⟩⟩
  | Except.ok (total, content) =>
    let finalName := safe_destination_filename (pyOrStr req.filename "upload.bin") ts unique
    if renameFails then
      ⟨Except.error ErrKind.storageFailure, ⟨false, none⟩⟩
    else
      ⟨Except.ok
        { filename := pyOrStr req.filename finalName
          saved_as := finalName
          size_bytes := total
          content_type := if contentType = "" then none else some contentType
          upload_dir := UPLOAD_DIR },
       ⟨false, some (finalName, content)⟩⟩

/-- Modelled from the spec's words, for the refinement comparison in claim
C5 only: split the filename "into base and extension at the last dot
(no match means empty extension)", with no further condition. -/
def lastDotExt (name : String) : String :=
  match rfindIdx '.' name.data with
  | none => ""
  | some ei => String.mk (name.data.drop ei)

/-- The name the spec's unconditional last-dot rule would generate; compared
against `safe_destination_filename` in claim C5. -/
def spec_destination_filename (originalName ts unique : String) : String :=
  ts ++ "_" ++ unique ++ strLower (lastDotExt originalName)

/-- Projection of a response to every field except the content type; used to
state that the declared content type influences nothing else. -/
def respCore (r : UploadResponse) : String × String × Nat × String :=
  (r.filename, r.saved_as, r.size_bytes, r.upload_dir)

example : splitext "video.mp4" = ("video", ".mp4") := by decide
example : splitext "Movie.MP4" = ("Movie", ".MP4") := by decide
example : splitext "noext" = ("noext", "") := by decide
example : splitext ".bashrc" = (".bashrc", "") := by decide
example : splitext "a.b.c" = ("a.b", ".c") := by decide
example : splitext "dir.d/file" = ("dir.d/file", "") := by decide
example : safe_destination_filename "Movie.MP4" "T" "u" = "T_u.mp4" := by decide
example : safe_destination_filename "upload.bin" "T" "u" = "T_u.bin" := by decide
example :
    upload_video ⟨some "empty.mp4", none, []⟩ none false "T" "u" =
      ⟨Except.ok ⟨"empty.mp4", "T_u.mp4", 0, none, "./upload"⟩,
        ⟨false, some ("T_u.mp4", [])⟩⟩ := rfl
example :
    upload_video ⟨some "a.mp4", some "video/mp4", [ReadEvent.chunk [1, 2], ReadEvent.chunk [3]]⟩
        none false "T" "u" =
      ⟨Except.ok ⟨"a.mp4", "T_u.mp4", 3, some "video/mp4", "./upload"⟩,
        ⟨false, some ("T_u.mp4", [1, 2, 3])⟩⟩ := rfl
example :
    upload_video ⟨some "a.mp4", none, [ReadEvent.fail]⟩ none false "T" "u" =
      ⟨Except.error ErrKind.ioFailure, ⟨false, none⟩⟩ := rfl

lemma chunksSum_nil : chunksSum [] = 0 := rfl

lemma chunksSum_cons (d : List Nat) (ds : List (List Nat)) :
    chunksSum (d :: ds) = d.length + chunksSum ds := by
  simp [chunksSum]

/-- When every chunk of the stream is nonempty, the stream ends (no further
events) and the grand total stays within the limit, the read loop consumes
everything, accumulates the whole content and reports the total. -/
lemma loop_ok_of_le (ds : List (List Nat)) :
    ∀ (wIdx total : Nat) (written : List Nat),
      (∀ d ∈ ds, d ≠ []) → total + chunksSum ds ≤ MAX_FILE_SIZE_BYTES →
      (enforce_file_size_loop none (ds.map ReadEvent.chunk) wIdx total written).res
          = LoopRes.ok (total + chunksSum ds) ∧
        (enforce_file_size_loop none (ds.map ReadEvent.chunk) wIdx total written).remaining = [] ∧
        (enforce_file_size_loop none (ds.map ReadEvent.chunk) wIdx total written).written
          = written ++ ds.flatten := by
  induction ds with
  | nil =>
    intro wIdx total written _ _
    simp [enforce_file_size_loop, chunksSum]
  | cons d ds ih =>
    intro wIdx total written hne hle
    have hd : d ≠ [] := hne d (by simp)
    rw [chunksSum_cons] at hle
    have hnotlt : ¬ MAX_FILE_SIZE_BYTES < total + d.length := by omega
    have ih' := ih (wIdx + 1) (total + d.length) (written ++ d)
      (fun x hx => hne x (by simp [hx])) (by omega)
    simp only [List.map_cons, enforce_file_size_loop, if_neg hd, if_neg hnotlt]
    simp only [show (none : Option Nat) = some wIdx ↔ False by simp, if_neg (fun h => h)]
    refine ⟨?_, ?_, ?_⟩
    · rw [ih'.1, chunksSum_cons]; ring_nf
    · exact ih'.2.1
    · rw [ih'.2.2]; simp

/-- When the cumulative total first exceeds the limit at some chunk `c`, the
loop aborts with the size error right there: everything after `c` is left
unread and `c` itself is never written. -/
lemma loop_overflow (ds : List (List Nat)) :
    ∀ (c : List Nat) (rest : List ReadEvent) (wIdx total : Nat) (written : List Nat),
      (∀ d ∈ ds, d ≠ []) → c ≠ [] →
      total + chunksSum ds ≤ MAX_FILE_SIZE_BYTES →
      MAX_FILE_SIZE_BYTES < total + chunksSum ds + c.length →
      (enforce_file_size_loop none (ds.map ReadEvent.chunk ++ ReadEvent.chunk c :: rest)
          wIdx total written).res = LoopRes.tooLarge ∧
        (enforce_file_size_loop none (ds.map ReadEvent.chunk ++ ReadEvent.chunk c :: rest)
            wIdx total written).remaining = rest ∧
        (enforce_file_size_loop none (ds.map ReadEvent.chunk ++ ReadEvent.chunk c :: rest)
            wIdx total written).written = written ++ ds.flatten := by
  induction ds with
  | nil =>
    intro c rest wIdx total written _ hc hle hlt
    rw [chunksSum_nil] at hle hlt
    have hlt' : MAX_FILE_SIZE_BYTES < total + c.length := by omega
    simp only [List.map_nil, List.nil_append, enforce_file_size_loop, if_neg hc, if_pos hlt']
    simp
  | cons d ds ih =>
    intro c rest wIdx total written hne hc hle hlt
    have hd : d ≠ [] := hne d (by simp)
    rw [chunksSum_cons] at hle hlt
    have hnotlt : ¬ MAX_FILE_SIZE_BYTES < total + d.length := by omega
    have ih' := ih c rest (wIdx + 1) (total + d.length) (written ++ d)
      (fun x hx => hne x (by simp [hx])) hc (by omega) (by omega)
    simp only [List.map_cons, List.cons_append, enforce_file_size_loop, if_neg hd,
      if_neg hnotlt]
    simp only [show (none : Option Nat) = some wIdx ↔ False by simp, if_neg (fun h => h),
      List.append_eq]
    refine ⟨ih'.1, ih'.2.1, ?_⟩
    rw [ih'.2.2]; simp

/-- Converse decomposition: whenever the loop ends with the size error, the
consumed events were a run of nonempty chunks within the limit followed by
the single chunk whose addition pushed the total over it; the remaining
events are exactly those after that chunk, and the temp file holds exactly
the chunks before it. -/
lemma loop_tooLarge_decomp (events : List ReadEvent) (dfa : Option Nat) :
    ∀ (wIdx total : Nat) (written : List Nat),
      total ≤ MAX_FILE_SIZE_BYTES →
      (enforce_file_size_loop dfa events wIdx total written).res = LoopRes.tooLarge →
      ∃ ds c rest, events = ds.map ReadEvent.chunk ++ ReadEvent.chunk c :: rest ∧
        (∀ d ∈ ds, d ≠ []) ∧ c ≠ [] ∧
        total + chunksSum ds ≤ MAX_FILE_SIZE_BYTES ∧
        MAX_FILE_SIZE_BYTES < total + chunksSum ds + c.length ∧
        (enforce_file_size_loop dfa events wIdx total written).remaining = rest ∧
        (enforce_file_size_loop dfa events wIdx total written).written
          = written ++ ds.flatten := by
  induction events with
  | nil =>
    intro wIdx total written _ hres
    simp [enforce_file_size_loop] at hres
  | cons ev rest ih =>
    intro wIdx total written hle hres
    cases ev with
    | fail => simp [enforce_file_size_loop] at hres
    | chunk d =>
      by_cases hd : d = []
      · simp [enforce_file_size_loop, hd] at hres
      · by_cases hlt : MAX_FILE_SIZE_BYTES < total + d.length
        · refine ⟨[], d, rest, by simp, by simp, hd, by simpa [chunksSum], by
            simpa [chunksSum], ?_, ?_⟩ <;>
            simp [enforce_file_size_loop, if_neg hd, if_pos hlt]
        · by_cases hdfa : dfa = some wIdx
          · simp [enforce_file_size_loop, if_neg hd, if_neg hlt, hdfa] at hres
          · have hres' : (enforce_file_size_loop dfa rest (wIdx + 1) (total + d.length)
                (written ++ d)).res = LoopRes.tooLarge := by
              simpa [enforce_file_size_loop, if_neg hd, if_neg hlt, if_neg hdfa] using hres
            obtain ⟨ds, c, rest', heq, hne, hc, hsle, hslt, hrem, hwr⟩ :=
              ih (wIdx + 1) (total + d.length) (written ++ d) (by omega) hres'
            refine ⟨d :: ds, c, rest', by simp [heq], ?_, hc, ?_, ?_, ?_, ?_⟩
            · intro x hx
              rcases List.mem_cons.mp hx with h | h
              · simpa [h] using hd
              · exact hne x h
            · rw [chunksSum_cons]; omega
            · rw [chunksSum_cons]; omega
            · simpa [enforce_file_size_loop, if_neg hd, if_neg hlt, if_neg hdfa] using hrem
            · rw [show (enforce_file_size_loop dfa (ReadEvent.chunk d :: rest) wIdx total
                  written).written = (enforce_file_size_loop dfa rest (wIdx + 1)
                  (total + d.length) (written ++ d)).written by
                simp [enforce_file_size_loop, if_neg hd, if_neg hlt, if_neg hdfa]]
              rw [hwr]; simp

/-- Loop invariant: starting from a temp file whose size equals the running
total and is within the limit, the temp file size never exceeds the limit —
neither at any intermediate write (the trace) nor at the end — and a normal
termination reports exactly the final temp file size, still within the
limit. -/
lemma loop_size_invariant (events : List ReadEvent) (dfa : Option Nat) :
    ∀ (wIdx total : Nat) (written : List Nat),
      total ≤ MAX_FILE_SIZE_BYTES → written.length = total →
      (enforce_file_size_loop dfa events wIdx total written).written.length
          ≤ MAX_FILE_SIZE_BYTES ∧
        (∀ n ∈ (enforce_file_size_loop dfa events wIdx total written).trace,
          n ≤ MAX_FILE_SIZE_BYTES) ∧
        (∀ t, (enforce_file_size_loop dfa events wIdx total written).res = LoopRes.ok t →
          (enforce_file_size_loop dfa events wIdx total written).written.length = t ∧
            t ≤ MAX_FILE_SIZE_BYTES) := by
  induction events with
  | nil =>
    intro wIdx total written hle hlen
    refine ⟨by simpa [enforce_file_size_loop, hlen], by simp [enforce_file_size_loop], ?_⟩
    intro t ht
    simp only [enforce_file_size_loop] at ht ⊢
    cases ht
    exact ⟨hlen, hle⟩
  | cons ev rest ih =>
    intro wIdx total written hle hlen
    cases ev with
    | fail =>
      refine ⟨by simpa [enforce_file_size_loop, hlen], by simp [enforce_file_size_loop], ?_⟩
      intro t ht
      simp [enforce_file_size_loop] at ht
    | chunk d =>
      by_cases hd : d = []
      · refine ⟨by simpa [enforce_file_size_loop, hd, hlen],
          by simp [enforce_file_size_loop, hd], ?_⟩
        intro t ht
        simp only [enforce_file_size_loop, if_pos hd] at ht ⊢
        cases ht
        exact ⟨hlen, hle⟩
      · by_cases hlt : MAX_FILE_SIZE_BYTES < total + d.length
        · refine ⟨by simpa [enforce_file_size_loop, if_neg hd, if_pos hlt, hlen],
            by simp [enforce_file_size_loop, if_neg hd, if_pos hlt], ?_⟩
          intro t ht
          simp [enforce_file_size_loop, if_neg hd, if_pos hlt] at ht
        · by_cases hdfa : dfa = some wIdx
          · refine ⟨by simpa [enforce_file_size_loop, if_neg hd, if_neg hlt, hdfa, hlen],
              by simp [enforce_file_size_loop, if_neg hd, if_neg hlt, hdfa], ?_⟩
            intro t ht
            simp [enforce_file_size_loop, if_neg hd, if_neg hlt, hdfa] at ht
          · have ih' := ih (wIdx + 1) (total + d.length) (written ++ d)
              (by omega) (by simp [hlen])
            refine ⟨?_, ?_, ?_⟩
            · simpa [enforce_file_size_loop, if_neg hd, if_neg hlt, if_neg hdfa] using ih'.1
            · intro n hn
              simp only [enforce_file_size_loop, if_neg hd, if_neg hlt, if_neg hdfa] at hn
              simp only [List.mem_cons] at hn
              rcases hn with h | h
              · subst h; simp [hlen]; omega
              · exact ih'.2.1 n h
            · intro t ht
              simp only [enforce_file_size_loop, if_neg hd, if_neg hlt, if_neg hdfa] at ht ⊢
              exact ih'.2.2 t ht

/-- A stream of nonempty chunks whose grand total exceeds the limit makes
the loop end with the size error (regardless of what is appended to the
accumulator state). -/
lemma loop_overflow_of_sum (cs : List (List Nat)) :
    ∀ (wIdx total : Nat) (written : List Nat),
      (∀ d ∈ cs, d ≠ []) → total ≤ MAX_FILE_SIZE_BYTES →
      MAX_FILE_SIZE_BYTES < total + chunksSum cs →
      (enforce_file_size_loop none (cs.map ReadEvent.chunk) wIdx total written).res
        = LoopRes.tooLarge := by
  induction cs with
  | nil =>
    intro wIdx total written _ hle hlt
    rw [chunksSum_nil] at hlt
    omega
  | cons d cs ih =>
    intro wIdx total written hne hle hlt
    have hd : d ≠ [] := hne d (by simp)
    rw [chunksSum_cons] at hlt
    by_cases hover : MAX_FILE_SIZE_BYTES < total + d.length
    · simp [enforce_file_size_loop, if_neg hd, if_pos hover]
    · have := ih (wIdx + 1) (total + d.length) (written ++ d)
        (fun x hx => hne x (by simp [hx])) (by omega) (by omega)
      simpa [enforce_file_size_loop, if_neg hd, if_neg hover] using this

/-- Running `_enforce_file_size` on a fault-free stream of nonempty chunks
within the limit: succeeds with the grand total and the concatenated
content, temp file in place. -/
lemma enforce_ok (ds : List (List Nat)) (hne : ∀ d ∈ ds, d ≠ [])
    (hle : chunksSum ds ≤ MAX_FILE_SIZE_BYTES) :
    enforce_file_size none (ds.map ReadEvent.chunk)
      = ⟨Except.ok (chunksSum ds, ds.flatten), true⟩ := by
  have h := loop_ok_of_le ds 0 0 [] hne (by simpa using hle)
  simp only [enforce_file_size]
  rw [h.1]
  simpa using congrArg (fun w => EnforceOut.mk (Except.ok (chunksSum ds, w)) true) h.2.2

/-- Running `_enforce_file_size` on a stream of nonempty chunks whose total
exceeds the limit: the 413 error, temp file removed. -/
lemma enforce_tooLarge_of_chunks (ds : List (List Nat)) (hne : ∀ d ∈ ds, d ≠ [])
    (hlt : MAX_FILE_SIZE_BYTES < chunksSum ds) :
    enforce_file_size none (ds.map ReadEvent.chunk)
      = ⟨Except.error ErrKind.payloadTooLarge, false⟩ := by
  have h := loop_overflow_of_sum ds 0 0 [] hne (by omega) (by simpa using hlt)
  simp only [enforce_file_size]
  rw [h]

/-- Whenever `_enforce_file_size` ends in an error, the temp file is gone. -/
lemma enforce_error_tmp (dfa : Option Nat) (events : List ReadEvent) (k : ErrKind)
    (h : (enforce_file_size dfa events).result = Except.error k) :
    (enforce_file_size dfa events).tmpExists = false := by
  simp only [enforce_file_size] at h ⊢
  cases hres : (enforce_file_size_loop dfa events 0 0 []).res <;> simp [hres] at h ⊢

/-- Full evaluation of `upload_video` on a fault-free stream of nonempty
chunks within the limit. -/
lemma upload_ok_of_chunks (fn ct : Option String) (ds : List (List Nat)) (ts u : String)
    (hne : ∀ d ∈ ds, d ≠ []) (hle : chunksSum ds ≤ MAX_FILE_SIZE_BYTES) :
    upload_video ⟨fn, ct, ds.map ReadEvent.chunk⟩ none false ts u
      = ⟨Except.ok
          ⟨pyOrStr fn (safe_destination_filename (pyOrStr fn "upload.bin") ts u),
            safe_destination_filename (pyOrStr fn "upload.bin") ts u,
            chunksSum ds,
            (if ct.getD "" = "" then none else some (ct.getD "")),
            UPLOAD_DIR⟩,
         ⟨false, some (safe_destination_filename (pyOrStr fn "upload.bin") ts u,
            ds.flatten)⟩⟩ := by
  simp [upload_video, enforce_ok ds hne hle]

/-- Full evaluation of `upload_video` on a stream of nonempty chunks whose
total exceeds the limit. -/
lemma upload_tooLarge_of_chunks (fn ct : Option String) (ds : List (List Nat)) (ts u : String)
    (rn : Bool) (hne : ∀ d ∈ ds, d ≠ []) (hlt : MAX_FILE_SIZE_BYTES < chunksSum ds) :
    upload_video ⟨fn, ct, ds.map ReadEvent.chunk⟩ none rn ts u
      = ⟨Except.error ErrKind.payloadTooLarge, ⟨false, none⟩⟩ := by
  simp [upload_video, enforce_tooLarge_of_chunks ds hne hlt]

/-- Whenever `upload_video` ends in an error, nothing of the operation is
left on disk: no temp file, no published file. -/
lemma upload_error_fs (req : UploadRequest) (dfa : Option Nat) (rn : Bool)
    (ts u : String) (k : ErrKind)
    (h : (upload_video req dfa rn ts u).result = Except.error k) :
    (upload_video req dfa rn ts u).fs = ⟨false, none⟩ := by
  cases hres : (enforce_file_size dfa req.events).result with
  | error k' =>
    have htmp := enforce_error_tmp dfa req.events k' hres
    simp [upload_video, hres, htmp]
  | ok v =>
    cases rn with
    | true => simp [upload_video, hres]
    | false => simp [upload_video, hres] at h

lemma rfindIdx_eq_none (c : Char) (l : List Char) (h : c ∉ l) : rfindIdx c l = none := by
  induction l with
  | nil => rfl
  | cons a as ih =>
    have hne : a ≠ c := fun hac => h (by simp [hac])
    have has : c ∉ as := fun hc => h (by simp [hc])
    simp [rfindIdx, ih has, hne]

lemma rfindIdx_append_right (c : Char) (xs ys : List Char) (j : Nat)
    (h : rfindIdx c ys = some j) : rfindIdx c (xs ++ ys) = some (xs.length + j) := by
  induction xs with
  | nil => simpa using h
  | cons a as ih =>
    simp only [List.cons_append, rfindIdx, List.append_eq, ih, List.length_cons,
      Option.some.injEq]
    omega

lemma rfindIdx_append_left (c : Char) (xs ys : List Char)
    (h : rfindIdx c ys = none) : rfindIdx c (xs ++ ys) = rfindIdx c xs := by
  induction xs with
  | nil => simpa using h
  | cons a as ih =>
    simp only [List.cons_append, rfindIdx, List.append_eq, ih]

lemma splitext_eq_of_none (name : String) (h : rfindIdx '.' name.data = none) :
    splitext name = (name, "") := by
  simp only [splitext, h]

lemma splitext_eq_of_some (name : String) (ei : Nat)
    (h : rfindIdx '.' name.data = some ei) :
    splitext name =
      (if (match rfindIdx '/' name.data with
            | none => 0
            | some si => si + 1) ≤ ei ∧
          ((name.data.drop (match rfindIdx '/' name.data with
              | none => 0
              | some si => si + 1)).take
            (ei - (match rfindIdx '/' name.data with
              | none => 0
              | some si => si + 1))).any (fun ch => ch ≠ '.') then
        (String.mk (name.data.take ei), String.mk (name.data.drop ei))
      else (name, "")) := by
  simp only [splitext, h]

/-- The two halves returned by `splitext` always reassemble to the input. -/
lemma splitext_append (name : String) :
    (splitext name).1 ++ (splitext name).2 = name := by
  cases hdot : rfindIdx '.' name.data with
  | none =>
    rw [splitext_eq_of_none name hdot]
    simp
  | some ei =>
    rw [splitext_eq_of_some name ei hdot]
    split
    · apply String.ext
      rw [String.data_append]
      exact List.take_append_drop ei name.data
    · simp

/-- On a name of the shape `b ++ "." ++ e` — where the extension part `e`
has no further dot, neither half has a path separator, and the base `b` has
at least one non-dot character — `splitext` splits exactly at that last
dot. -/
lemma splitext_last_dot (b e : String) (he : '.' ∉ e.data) (hse : '/' ∉ e.data)
    (hsb : '/' ∉ b.data) (hb : ∃ ch ∈ b.data, ch ≠ '.') :
    splitext (b ++ "." ++ e) = (b, "." ++ e) := by
  have hdata : (b ++ "." ++ e).data = b.data ++ ('.' :: e.data) := by
    rw [String.data_append, String.data_append, List.append_assoc]
    rfl
  have hdotTail : rfindIdx '.' ('.' :: e.data) = some 0 := by
    simp [rfindIdx, rfindIdx_eq_none '.' e.data he]
  have hdot : rfindIdx '.' (b ++ "." ++ e).data = some b.data.length := by
    rw [hdata]
    simpa using rfindIdx_append_right '.' b.data ('.' :: e.data) 0 hdotTail
  have hslashTail : rfindIdx '/' ('.' :: e.data) = none := by
    refine rfindIdx_eq_none '/' ('.' :: e.data) ?_
    intro hmem
    rcases List.mem_cons.mp hmem with h | h
    · exact absurd h.symm (by decide)
    · exact hse h
  have hslash : rfindIdx '/' (b ++ "." ++ e).data = none := by
    rw [hdata, rfindIdx_append_left '/' b.data ('.' :: e.data) hslashTail]
    exact rfindIdx_eq_none '/' b.data hsb
  have htake : (b ++ "." ++ e).data.take b.data.length = b.data := by
    rw [hdata]
    exact List.take_left b.data ('.' :: e.data)
  have hdrop : (b ++ "." ++ e).data.drop b.data.length = '.' :: e.data := by
    rw [hdata]
    exact List.drop_left b.data ('.' :: e.data)
  have hany : ((b ++ "." ++ e).data.take b.data.length).any (fun ch => ch ≠ '.') = true := by
    rw [htake, List.any_eq_true]
    obtain ⟨ch, hmem, hch⟩ := hb
    exact ⟨ch, hmem, by simpa using hch⟩
  rw [splitext_eq_of_some (b ++ "." ++ e) b.data.length hdot, hslash]
  simp only [Nat.zero_le, Nat.sub_zero, List.drop_zero, true_and]
  rw [if_pos hany]
  refine Prod.ext ?_ ?_
  · show String.mk ((b ++ "." ++ e).data.take b.data.length) = b
    rw [htake]
  · show String.mk ((b ++ "." ++ e).data.drop b.data.length) = "." ++ e
    rw [hdrop]
    apply String.ext
    rw [String.data_append]
    rfl

/-- Inversion of a successful `_enforce_file_size` run back to the loop. -/
lemma enforce_ok_inv (dfa : Option Nat) (events : List ReadEvent) (v : Nat × List Nat)
    (h : (enforce_file_size dfa events).result = Except.ok v) :
    (enforce_file_size_loop dfa events 0 0 []).res = LoopRes.ok v.1 ∧
      (enforce_file_size_loop dfa events 0 0 []).written = v.2 := by
  simp only [enforce_file_size] at h
  cases hres : (enforce_file_size_loop dfa events 0 0 []).res with
  | ok total =>
    rw [hres] at h
    simp only [Except.ok.injEq] at h
    subst h
    exact ⟨rfl, rfl⟩
  | tooLarge => rw [hres] at h; simp at h
  | ioError => rw [hres] at h; simp at h

/-- Inversion of a successful `upload_video` call: the rename succeeded, the
stream stayed within the limit, the stored content's length is the reported
total, and the response record is fully determined. -/
lemma upload_ok_inv (req : UploadRequest) (dfa : Option Nat) (rn : Bool)
    (ts u : String) (r : UploadResponse)
    (h : (upload_video req dfa rn ts u).result = Except.ok r) :
    rn = false ∧
      ∃ total content,
        (enforce_file_size dfa req.events).result = Except.ok (total, content) ∧
        content.length = total ∧ total ≤ MAX_FILE_SIZE_BYTES ∧
        r = ⟨pyOrStr req.filename
              (safe_destination_filename (pyOrStr req.filename "upload.bin") ts u),
            safe_destination_filename (pyOrStr req.filename "upload.bin") ts u,
            total,
            (if req.contentType.getD "" = "" then none else some (req.contentType.getD "")),
            UPLOAD_DIR⟩ ∧
        (upload_video req dfa rn ts u).fs = ⟨false, some (r.saved_as, content)⟩ := by
  cases hres : (enforce_file_size dfa req.events).result with
  | error k => simp [upload_video, hres] at h
  | ok v =>
    cases rn with
    | true => simp [upload_video, hres] at h
    | false =>
      obtain ⟨total, content⟩ := v
      have hloop := enforce_ok_inv dfa req.events (total, content) hres
      have hsz := loop_size_invariant req.events dfa 0 0 [] (by omega) rfl
      obtain ⟨hlen, hle⟩ := hsz.2.2 total hloop.1
      rw [hloop.2] at hlen
      refine ⟨rfl, total, content, rfl, hlen, hle, ?_, ?_⟩
      · simp only [upload_video, hres] at h
        simp at h
        exact h.symm
      · simp only [upload_video, hres] at h ⊢
        simp at h ⊢
        rw [← h]

/-- Claim C1: an input stream totalling exactly `MAX_FILE_SIZE_BYTES` is accepted,
while one byte more yields the `PayloadTooLarge` error (HTTP 413) and
leaves neither a temp file nor a published file in the destination
directory. -/
theorem c1_size_boundary (fn ct : Option String) (csA csB : List (List Nat)) (ts u : String)
    (hA : ∀ c ∈ csA, c ≠ []) (hAs : chunksSum csA = MAX_FILE_SIZE_BYTES)
    (hB : ∀ c ∈ csB, c ≠ []) (hBs : chunksSum csB = MAX_FILE_SIZE_BYTES + 1) :
    (∃ r, (upload_video ⟨fn, ct, csA.map ReadEvent.chunk⟩ none false ts u).result = Except.ok r
        ∧ r.size_bytes = MAX_FILE_SIZE_BYTES) ∧
      (upload_video ⟨fn, ct, csB.map ReadEvent.chunk⟩ none false ts u).result
          = Except.error ErrKind.payloadTooLarge ∧
      errStatusCode ErrKind.payloadTooLarge = 413 ∧
      (upload_video ⟨fn, ct, csB.map ReadEvent.chunk⟩ none false ts u).fs.tmpExists = false ∧
      (upload_video ⟨fn, ct, csB.map ReadEvent.chunk⟩ none false ts u).fs.destFile = none := by
  have hBig := upload_tooLarge_of_chunks fn ct csB ts u false hB (by omega)
  refine ⟨?_, ?_, rfl, ?_, ?_⟩
  · rw [upload_ok_of_chunks fn ct csA ts u hA (by omega)]
    exact ⟨_, rfl, hAs⟩
  · rw [hBig]
  · rw [hBig]
  · rw [hBig]

theorem c1_size_boundary_witness :
    (∀ c ∈ [List.replicate MAX_FILE_SIZE_BYTES 0], c ≠ []) ∧
      chunksSum [List.replicate MAX_FILE_SIZE_BYTES 0] = MAX_FILE_SIZE_BYTES ∧
      (∀ c ∈ [List.replicate (MAX_FILE_SIZE_BYTES + 1) 0], c ≠ []) ∧
      chunksSum [List.replicate (MAX_FILE_SIZE_BYTES + 1) 0] = MAX_FILE_SIZE_BYTES + 1 ∧
      ((∃ r, (upload_video ⟨some "video.mp4", some "video/mp4",
            ([List.replicate MAX_FILE_SIZE_BYTES 0]).map ReadEvent.chunk⟩
              none false "T" "u").result = Except.ok r
          ∧ r.size_bytes = MAX_FILE_SIZE_BYTES) ∧
        (upload_video ⟨some "video.mp4", some "video/mp4",
            ([List.replicate (MAX_FILE_SIZE_BYTES + 1) 0]).map ReadEvent.chunk⟩
              none false "T" "u").result = Except.error ErrKind.payloadTooLarge ∧
        errStatusCode ErrKind.payloadTooLarge = 413 ∧
        (upload_video ⟨some "video.mp4", some "video/mp4",
            ([List.replicate (MAX_FILE_SIZE_BYTES + 1) 0]).map ReadEvent.chunk⟩
              none false "T" "u").fs.tmpExists = false ∧
        (upload_video ⟨some "video.mp4", some "video/mp4",
            ([List.replicate (MAX_FILE_SIZE_BYTES + 1) 0]).map ReadEvent.chunk⟩
              none false "T" "u").fs.destFile = none) := by
  have hmax : MAX_FILE_SIZE_BYTES ≠ 0 := by decide
  have h1 : ∀ c ∈ [List.replicate MAX_FILE_SIZE_BYTES 0], c ≠ [] := by
    intro c hc
    simp only [List.mem_singleton] at hc
    subst hc
    rw [Ne, List.replicate_eq_nil_iff]
    exact hmax
  have h2 : chunksSum [List.replicate MAX_FILE_SIZE_BYTES 0] = MAX_FILE_SIZE_BYTES := by
    rw [chunksSum_cons, List.length_replicate, chunksSum_nil]
    omega
  have h3 : ∀ c ∈ [List.replicate (MAX_FILE_SIZE_BYTES + 1) 0], c ≠ [] := by
    intro c hc
    simp only [List.mem_singleton] at hc
    subst hc
    rw [Ne, List.replicate_eq_nil_iff]
    omega
  have h4 : chunksSum [List.replicate (MAX_FILE_SIZE_BYTES + 1) 0]
      = MAX_FILE_SIZE_BYTES + 1 := by
    rw [chunksSum_cons, List.length_replicate, chunksSum_nil]
  exact ⟨h1, h2, h3, h4,
    c1_size_boundary (some "video.mp4") (some "video/mp4")
      [List.replicate MAX_FILE_SIZE_BYTES 0] [List.replicate (MAX_FILE_SIZE_BYTES + 1) 0]
      "T" "u" h1 h2 h3 h4⟩

/-- Claim C2: every error outcome of the upload operation (size violation, stream
or write I/O failure, or rename failure at publish) ends with the temp file
deleted and no published file: nothing persists on disk. -/
theorem c2_error_cleanup (req : UploadRequest) (dfa : Option Nat) (rn : Bool)
    (ts u : String) (k : ErrKind)
    (h : (upload_video req dfa rn ts u).result = Except.error k) :
    (upload_video req dfa rn ts u).fs.tmpExists = false ∧
      (upload_video req dfa rn ts u).fs.destFile = none := by
  rw [upload_error_fs req dfa rn ts u k h]
  exact ⟨rfl, rfl⟩

theorem c2_error_cleanup_witness :
    (upload_video ⟨some "a.mp4", none, []⟩ none true "T" "u").result
        = Except.error ErrKind.storageFailure ∧
      (upload_video ⟨some "a.mp4", none, []⟩ none true "T" "u").fs.tmpExists = false ∧
      (upload_video ⟨some "a.mp4", none, []⟩ none true "T" "u").fs.destFile = none := by
  have h : (upload_video ⟨some "a.mp4", none, []⟩ none true "T" "u").result
      = Except.error ErrKind.storageFailure := rfl
  exact ⟨h, c2_error_cleanup ⟨some "a.mp4", none, []⟩ none true "T" "u"
    ErrKind.storageFailure h⟩

/-- Claim C3: as soon as the running total exceeds the limit — at chunk `c` after
the within-limit chunks `ds` — the loop raises the size error and stops
reading: the events after `c` are exactly what remains unconsumed, and
`_enforce_file_size` surfaces `PayloadTooLarge`. -/
theorem c3_stops_after_overflow (ds : List (List Nat)) (c : List Nat) (rest : List ReadEvent)
    (hne : ∀ d ∈ ds, d ≠ []) (hc : c ≠ [])
    (hle : chunksSum ds ≤ MAX_FILE_SIZE_BYTES)
    (hlt : MAX_FILE_SIZE_BYTES < chunksSum ds + c.length) :
    (enforce_file_size_loop none (ds.map ReadEvent.chunk ++ ReadEvent.chunk c :: rest)
        0 0 []).res = LoopRes.tooLarge ∧
      (enforce_file_size_loop none (ds.map ReadEvent.chunk ++ ReadEvent.chunk c :: rest)
          0 0 []).remaining = rest ∧
      enforce_file_size none (ds.map ReadEvent.chunk ++ ReadEvent.chunk c :: rest)
        = ⟨Except.error ErrKind.payloadTooLarge, false⟩ := by
  have h := loop_overflow ds c rest 0 0 [] hne hc (by omega) (by omega)
  refine ⟨h.1, h.2.1, ?_⟩
  simp only [enforce_file_size]
  rw [h.1]

theorem c3_stops_after_overflow_witness :
    (∀ d ∈ ([] : List (List Nat)), d ≠ []) ∧
      List.replicate (MAX_FILE_SIZE_BYTES + 1) 0 ≠ [] ∧
      chunksSum [] ≤ MAX_FILE_SIZE_BYTES ∧
      MAX_FILE_SIZE_BYTES < chunksSum [] + (List.replicate (MAX_FILE_SIZE_BYTES + 1) 0).length ∧
      ((enforce_file_size_loop none
          (([] : List (List Nat)).map ReadEvent.chunk ++
            ReadEvent.chunk (List.replicate (MAX_FILE_SIZE_BYTES + 1) 0) ::
              [ReadEvent.chunk [7]]) 0 0 []).res = LoopRes.tooLarge ∧
        (enforce_file_size_loop none
            (([] : List (List Nat)).map ReadEvent.chunk ++
              ReadEvent.chunk (List.replicate (MAX_FILE_SIZE_BYTES + 1) 0) ::
                [ReadEvent.chunk [7]]) 0 0 []).remaining = [ReadEvent.chunk [7]] ∧
        enforce_file_size none
            (([] : List (List Nat)).map ReadEvent.chunk ++
              ReadEvent.chunk (List.replicate (MAX_FILE_SIZE_BYTES + 1) 0) ::
                [ReadEvent.chunk [7]])
          = ⟨Except.error ErrKind.payloadTooLarge, false⟩) := by
  have h1 : ∀ d ∈ ([] : List (List Nat)), d ≠ [] := by simp
  have h2 : List.replicate (MAX_FILE_SIZE_BYTES + 1) 0 ≠ [] := by
    rw [Ne, List.replicate_eq_nil_iff]
    omega
  have h3 : chunksSum [] ≤ MAX_FILE_SIZE_BYTES := by
    rw [chunksSum_nil]
    omega
  have h4 : MAX_FILE_SIZE_BYTES
      < chunksSum [] + (List.replicate (MAX_FILE_SIZE_BYTES + 1) 0).length := by
    rw [chunksSum_nil, List.length_replicate]
    omega
  exact ⟨h1, h2, h3, h4,
    c3_stops_after_overflow [] (List.replicate (MAX_FILE_SIZE_BYTES + 1) 0)
      [ReadEvent.chunk [7]] h1 h2 h3 h4⟩

/-- Claim C4: a fault-free stream within the limit is stored verbatim — the
published file's bytes are the chunks concatenated in order — and the
reported `size_bytes` equals the stored file's length. -/
theorem c4_content_fidelity (fn ct : Option String) (ds : List (List Nat)) (ts u : String)
    (hne : ∀ d ∈ ds, d ≠ []) (hle : chunksSum ds ≤ MAX_FILE_SIZE_BYTES) :
    ∃ r, (upload_video ⟨fn, ct, ds.map ReadEvent.chunk⟩ none false ts u).result
          = Except.ok r ∧
      (upload_video ⟨fn, ct, ds.map ReadEvent.chunk⟩ none false ts u).fs.destFile
        = some (r.saved_as, ds.flatten) ∧
      r.size_bytes = ds.flatten.length := by
  rw [upload_ok_of_chunks fn ct ds ts u hne hle]
  refine ⟨_, rfl, rfl, ?_⟩
  simp [chunksSum, List.length_flatten]

theorem c4_content_fidelity_witness :
    (∀ d ∈ [[1, 2], [3]], d ≠ ([] : List Nat)) ∧
      chunksSum [[1, 2], [3]] ≤ MAX_FILE_SIZE_BYTES ∧
      ∃ r, (upload_video ⟨some "a.mp4", some "video/mp4",
            ([[1, 2], [3]] : List (List Nat)).map ReadEvent.chunk⟩ none false "T" "u").result
          = Except.ok r ∧
        (upload_video ⟨some "a.mp4", some "video/mp4",
            ([[1, 2], [3]] : List (List Nat)).map ReadEvent.chunk⟩ none false "T" "u").fs.destFile
          = some (r.saved_as, ([[1, 2], [3]] : List (List Nat)).flatten) ∧
        r.size_bytes = ([[1, 2], [3]] : List (List Nat)).flatten.length := by
  have h1 : ∀ d ∈ [[1, 2], [3]], d ≠ ([] : List Nat) := by decide
  have h2 : chunksSum [[1, 2], [3]] ≤ MAX_FILE_SIZE_BYTES := by decide
  exact ⟨h1, h2,
    c4_content_fidelity (some "a.mp4") (some "video/mp4") [[1, 2], [3]] "T" "u" h1 h2⟩

/-- Claim C5, counterexample: the generator does not follow the unconditional
last-dot rule on every filename.  On the dotfile `".bashrc"` the code's
`os.path.splitext` yields an empty extension, while the claim's rule — split
at the last dot, modelled by `spec_destination_filename` — would keep
`.bashrc` as the extension.  The two generated names differ. -/
theorem c5_counterexample :
    safe_destination_filename ".bashrc" "T" "u" = "T_u" ∧
      spec_destination_filename ".bashrc" "T" "u" = "T_u.bashrc" ∧
      ("T_u" : String) ≠ "T_u.bashrc" := by
  refine ⟨by decide, by decide, by decide⟩

/-- Claim C5, amended: the generator discards the base and returns
`ts ++ "_" ++ token ++ ext` with `ext` the lower-cased extension computed by
`os.path.splitext`; the two halves of the split reassemble to the input; the
split is at the last dot whenever the part before that dot has a non-dot
character and no separator is involved (so `"Movie.MP4"` maps to a name
ending in `".mp4"` and `"noext"` to a name with no extension), but a
dotfile such as `".bashrc"` gets an empty extension. -/
theorem c5_name_generator :
    (∀ name ts u, safe_destination_filename name ts u
        = ts ++ "_" ++ u ++ strLower (splitext name).2) ∧
      (∀ name, (splitext name).1 ++ (splitext name).2 = name) ∧
      (∀ b e : String, '.' ∉ e.data → '/' ∉ e.data → '/' ∉ b.data →
        (∃ ch ∈ b.data, ch ≠ '.') →
        splitext (b ++ "." ++ e) = (b, "." ++ e)) ∧
      (∀ ts u, safe_destination_filename "Movie.MP4" ts u = ts ++ "_" ++ u ++ ".mp4") ∧
      (∀ ts u, safe_destination_filename "noext" ts u = ts ++ "_" ++ u) ∧
      (∀ ts u, safe_destination_filename ".bashrc" ts u = ts ++ "_" ++ u) := by
  have hgen : ∀ name ts u, safe_destination_filename name ts u
      = ts ++ "_" ++ u ++ strLower (splitext name).2 := fun _ _ _ => rfl
  refine ⟨hgen, splitext_append, splitext_last_dot, ?_, ?_, ?_⟩
  · intro ts u
    rw [hgen, show (splitext "Movie.MP4").2 = ".MP4" from by decide,
      show strLower ".MP4" = ".mp4" from by decide]
  · intro ts u
    rw [hgen, show (splitext "noext").2 = "" from by decide,
      show strLower "" = "" from rfl]
    simp
  · intro ts u
    rw [hgen, show (splitext ".bashrc").2 = "" from by decide,
      show strLower "" = "" from rfl]
    simp

theorem c5_name_generator_witness :
    ('.' ∉ "MP4".data) ∧ ('/' ∉ "MP4".data) ∧ ('/' ∉ "Movie".data) ∧
      (∃ ch ∈ "Movie".data, ch ≠ '.') ∧
      splitext ("Movie" ++ "." ++ "MP4") = ("Movie", "." ++ "MP4") ∧
      safe_destination_filename "Movie.MP4" "T" "u" = "T" ++ "_" ++ "u" ++ ".mp4" ∧
      safe_destination_filename "noext" "T" "u" = "T" ++ "_" ++ "u" := by
  have h1 : '.' ∉ "MP4".data := by decide
  have h2 : '/' ∉ "MP4".data := by decide
  have h3 : '/' ∉ "Movie".data := by decide
  have h4 : ∃ ch ∈ "Movie".data, ch ≠ '.' := ⟨'M', by decide, by decide⟩
  exact ⟨h1, h2, h3, h4,
    c5_name_generator.2.2.1 "Movie" "MP4" h1 h2 h3 h4,
    c5_name_generator.2.2.2.1 "T" "u",
    c5_name_generator.2.2.2.2.1 "T" "u"⟩

/-- Claim C6: every successfully published upload is within the configured limit:
the reported size and the stored file's actual length never exceed
`MAX_FILE_SIZE_BYTES` (the rename is only reached with a within-limit
total). -/
theorem c6_stored_within_limit (req : UploadRequest) (dfa : Option Nat) (rn : Bool)
    (ts u : String) (r : UploadResponse)
    (h : (upload_video req dfa rn ts u).result = Except.ok r) :
    r.size_bytes ≤ MAX_FILE_SIZE_BYTES ∧
      ∀ name content,
        (upload_video req dfa rn ts u).fs.destFile = some (name, content) →
        content.length ≤ MAX_FILE_SIZE_BYTES := by
  obtain ⟨hrn, total, content, henf, hlen, hle, hr, hfs⟩ :=
    upload_ok_inv req dfa rn ts u r h
  constructor
  · rw [hr]
    exact hle
  · intro name c' hdest
    rw [hfs] at hdest
    simp only [Option.some.injEq, Prod.mk.injEq] at hdest
    rw [← hdest.2, hlen]
    exact hle

theorem c6_stored_within_limit_witness :
    (upload_video ⟨some "empty.mp4", none, []⟩ none false "T" "u").result
        = Except.ok ⟨"empty.mp4", "T_u.mp4", 0, none, "./upload"⟩ ∧
      (⟨"empty.mp4", "T_u.mp4", 0, none, "./upload"⟩ : UploadResponse).size_bytes
          ≤ MAX_FILE_SIZE_BYTES ∧
      ∀ name content,
        (upload_video ⟨some "empty.mp4", none, []⟩ none false "T" "u").fs.destFile
            = some (name, content) →
        content.length ≤ MAX_FILE_SIZE_BYTES := by
  have h : (upload_video ⟨some "empty.mp4", none, []⟩ none false "T" "u").result
      = Except.ok ⟨"empty.mp4", "T_u.mp4", 0, none, "./upload"⟩ := rfl
  exact ⟨h, c6_stored_within_limit ⟨some "empty.mp4", none, []⟩ none false "T" "u"
    ⟨"empty.mp4", "T_u.mp4", 0, none, "./upload"⟩ h⟩

/-- Claim C7: a zero-byte stream — whether the event list is already empty or the
first read returns the EOF sentinel `b""` — is accepted: the operation
succeeds, reports `size_bytes = 0`, removes the temp file and publishes an
empty file. -/
theorem c7_zero_byte_accepted (fn ct : Option String) (ts u : String) :
    (∃ r, (upload_video ⟨fn, ct, []⟩ none false ts u).result = Except.ok r ∧
        r.size_bytes = 0 ∧
        (upload_video ⟨fn, ct, []⟩ none false ts u).fs.tmpExists = false ∧
        (upload_video ⟨fn, ct, []⟩ none false ts u).fs.destFile = some (r.saved_as, [])) ∧
      (∃ r, (upload_video ⟨fn, ct, [ReadEvent.chunk []]⟩ none false ts u).result
            = Except.ok r ∧
        r.size_bytes = 0 ∧
        (upload_video ⟨fn, ct, [ReadEvent.chunk []]⟩ none false ts u).fs.tmpExists = false ∧
        (upload_video ⟨fn, ct, [ReadEvent.chunk []]⟩ none false ts u).fs.destFile
          = some (r.saved_as, [])) := by
  constructor
  · have h := upload_ok_of_chunks fn ct [] ts u (by simp) (by rw [chunksSum_nil]; omega)
    simp only [List.map_nil] at h
    rw [h]
    exact ⟨_, rfl, rfl, rfl, rfl⟩
  · have hcase : upload_video ⟨fn, ct, [ReadEvent.chunk []]⟩ none false ts u
        = ⟨Except.ok
            ⟨pyOrStr fn (safe_destination_filename (pyOrStr fn "upload.bin") ts u),
              safe_destination_filename (pyOrStr fn "upload.bin") ts u, 0,
              (if ct.getD "" = "" then none else some (ct.getD "")), UPLOAD_DIR⟩,
           ⟨false, some (safe_destination_filename (pyOrStr fn "upload.bin") ts u, [])⟩⟩ :=
      rfl
    rw [hcase]
    exact ⟨_, rfl, rfl, rfl, rfl⟩

/-- Claim C8, counterexample: when the request carries the empty string as its
original filename, the response's `filename` field is not that supplied
original — the source's `file.filename or final_name` substitutes the
generated destination name. -/
theorem c8_counterexample :
    (upload_video ⟨some "", none, []⟩ none false "T" "u").result.map (fun r => r.filename)
        = Except.ok "T_u.bin" ∧
      ("T_u.bin" : String) ≠ "" := by
  exact ⟨rfl, by decide⟩

/-- Claim C8, amended: every successful upload returns a fully populated result:
the saved name comes from the generator applied to the original filename
(generic fallback `"upload.bin"` when absent or empty), the `filename`
field echoes the original filename when supplied and non-empty and
otherwise the saved name, the directory is the configured one, the
content type is the declared value (absent when undeclared or empty), and
`size_bytes` equals the published file's length. -/
theorem c8_result_population (req : UploadRequest) (dfa : Option Nat) (rn : Bool)
    (ts u : String) (r : UploadResponse)
    (h : (upload_video req dfa rn ts u).result = Except.ok r) :
    r.saved_as = safe_destination_filename (pyOrStr req.filename "upload.bin") ts u ∧
      r.filename = pyOrStr req.filename r.saved_as ∧
      (∀ s, req.filename = some s → s ≠ "" → r.filename = s) ∧
      r.upload_dir = UPLOAD_DIR ∧
      r.content_type
        = (if req.contentType.getD "" = "" then none else some (req.contentType.getD "")) ∧
      ∃ content,
        (upload_video req dfa rn ts u).fs.destFile = some (r.saved_as, content) ∧
        r.size_bytes = content.length := by
  obtain ⟨hrn, total, content, henf, hlen, hle, hr, hfs⟩ :=
    upload_ok_inv req dfa rn ts u r h
  subst hr
  refine ⟨rfl, rfl, ?_, rfl, rfl, content, ?_, ?_⟩
  · intro s hs hne
    simp [pyOrStr, hs, hne]
  · rw [hfs]
  · exact hlen.symm

theorem c8_result_population_witness :
    (upload_video ⟨some "a.mp4", some "video/mp4", [ReadEvent.chunk [9]]⟩
          none false "T" "u").result
        = Except.ok ⟨"a.mp4", "T_u.mp4", 1, some "video/mp4", "./upload"⟩ ∧
      ((⟨"a.mp4", "T_u.mp4", 1, some "video/mp4", "./upload"⟩ : UploadResponse).saved_as
          = safe_destination_filename
              (pyOrStr (some "a.mp4") "upload.bin") "T" "u" ∧
        (⟨"a.mp4", "T_u.mp4", 1, some "video/mp4", "./upload"⟩ : UploadResponse).filename
          = pyOrStr (some "a.mp4")
              (⟨"a.mp4", "T_u.mp4", 1, some "video/mp4", "./upload"⟩ : UploadResponse).saved_as ∧
        (∀ s, (some "a.mp4" : Option String) = some s → s ≠ "" →
          (⟨"a.mp4", "T_u.mp4", 1, some "video/mp4", "./upload"⟩ : UploadResponse).filename
            = s) ∧
        (⟨"a.mp4", "T_u.mp4", 1, some "video/mp4", "./upload"⟩ : UploadResponse).upload_dir
          = UPLOAD_DIR ∧
        (⟨"a.mp4", "T_u.mp4", 1, some "video/mp4", "./upload"⟩ : UploadResponse).content_type
          = (if (some "video/mp4" : Option String).getD "" = "" then none
              else some ((some "video/mp4" : Option String).getD "")) ∧
        ∃ content,
          (upload_video ⟨some "a.mp4", some "video/mp4", [ReadEvent.chunk [9]]⟩
              none false "T" "u").fs.destFile
            = some ((⟨"a.mp4", "T_u.mp4", 1, some "video/mp4", "./upload"⟩ :
                UploadResponse).saved_as, content) ∧
          (⟨"a.mp4", "T_u.mp4", 1, some "video/mp4", "./upload"⟩ :
              UploadResponse).size_bytes = content.length) := by
  have h : (upload_video ⟨some "a.mp4", some "video/mp4", [ReadEvent.chunk [9]]⟩
        none false "T" "u").result
      = Except.ok ⟨"a.mp4", "T_u.mp4", 1, some "video/mp4", "./upload"⟩ := rfl
  exact ⟨h, c8_result_population ⟨some "a.mp4", some "video/mp4", [ReadEvent.chunk [9]]⟩
    none false "T" "u" ⟨"a.mp4", "T_u.mp4", 1, some "video/mp4", "./upload"⟩ h⟩

/-- Claim C9, counterexample: a declared content type that is the empty string is
not passed through unchanged — the source's `content_type or ""` plus
`content_type if content_type else None` collapses it to an absent value,
although a value was declared. -/
theorem c9_counterexample :
    (upload_video ⟨some "a.mp4", some "", []⟩ none false "T" "u").result.map
        (fun r => r.content_type) = Except.ok none ∧
      (some "" : Option String) ≠ none := by
  exact ⟨rfl, by decide⟩

/-- Claim C9, amended: the declared content type never changes the outcome — any
two requests differing only in content type produce identical results in
every field but `content_type`, identical errors, and identical filesystem
footprints — and the `content_type` field is the declared value passed
through, except that an undeclared or empty declaration yields an absent
field. -/
theorem c9_content_type_advisory (fn ct1 ct2 : Option String)
    (evs : List ReadEvent) (dfa : Option Nat) (rn : Bool) (ts u : String) :
    (upload_video ⟨fn, ct1, evs⟩ dfa rn ts u).result.map respCore
        = (upload_video ⟨fn, ct2, evs⟩ dfa rn ts u).result.map respCore ∧
      (upload_video ⟨fn, ct1, evs⟩ dfa rn ts u).fs
        = (upload_video ⟨fn, ct2, evs⟩ dfa rn ts u).fs ∧
      (upload_video ⟨fn, ct1, evs⟩ dfa rn ts u).result.map (fun r => r.content_type)
        = (upload_video ⟨fn, ct1, evs⟩ dfa rn ts u).result.map
            (fun _ => if ct1.getD "" = "" then none else some (ct1.getD "")) := by
  cases hres : (enforce_file_size dfa evs).result with
  | error k =>
    refine ⟨?_, ?_, ?_⟩ <;> simp [upload_video, hres, Except.map]
  | ok v =>
    obtain ⟨total, content⟩ := v
    cases rn with
    | true => refine ⟨?_, ?_, ?_⟩ <;> simp [upload_video, hres, Except.map]
    | false => refine ⟨?_, ?_, ?_⟩ <;> simp [upload_video, hres, respCore, Except.map]

/-- Claim C10: the temp file's size never exceeds the limit at any point of the
stream — after every completed write (the trace) and at loop exit — and on
a size abort the chunk that made the counted total exceed the limit was
itself never written: the file holds exactly the chunks before it. -/
theorem c10_limit_check_before_write (dfa : Option Nat) (events : List ReadEvent) :
    (∀ n ∈ (enforce_file_size_loop dfa events 0 0 []).trace, n ≤ MAX_FILE_SIZE_BYTES) ∧
      (enforce_file_size_loop dfa events 0 0 []).written.length ≤ MAX_FILE_SIZE_BYTES ∧
      ((enforce_file_size_loop dfa events 0 0 []).res = LoopRes.tooLarge →
        ∃ ds c rest, events = ds.map ReadEvent.chunk ++ ReadEvent.chunk c :: rest ∧
          (enforce_file_size_loop dfa events 0 0 []).written = ds.flatten ∧
          chunksSum ds ≤ MAX_FILE_SIZE_BYTES ∧
          MAX_FILE_SIZE_BYTES < chunksSum ds + c.length) := by
  have hinv := loop_size_invariant events dfa 0 0 [] (by omega) rfl
  refine ⟨hinv.2.1, hinv.1, ?_⟩
  intro hres
  obtain ⟨ds, c, rest, heq, hne, hc, hsle, hslt, hrem, hwr⟩ :=
    loop_tooLarge_decomp events dfa 0 0 [] (by omega) hres
  exact ⟨ds, c, rest, heq, by simpa using hwr, by omega, by omega⟩

theorem c10_limit_check_before_write_witness :
    ((enforce_file_size_loop none
          [ReadEvent.chunk (List.replicate (MAX_FILE_SIZE_BYTES + 1) 0)] 0 0 []).res
        = LoopRes.tooLarge) ∧
      (∀ n ∈ (enforce_file_size_loop none
          [ReadEvent.chunk (List.replicate (MAX_FILE_SIZE_BYTES + 1) 0)] 0 0 []).trace,
        n ≤ MAX_FILE_SIZE_BYTES) ∧
      (enforce_file_size_loop none
          [ReadEvent.chunk (List.replicate (MAX_FILE_SIZE_BYTES + 1) 0)]
          0 0 []).written.length ≤ MAX_FILE_SIZE_BYTES ∧
      ∃ ds c rest,
        [ReadEvent.chunk (List.replicate (MAX_FILE_SIZE_BYTES + 1) 0)]
            = ds.map ReadEvent.chunk ++ ReadEvent.chunk c :: rest ∧
          (enforce_file_size_loop none
              [ReadEvent.chunk (List.replicate (MAX_FILE_SIZE_BYTES + 1) 0)]
              0 0 []).written = ds.flatten ∧
          chunksSum ds ≤ MAX_FILE_SIZE_BYTES ∧
          MAX_FILE_SIZE_BYTES < chunksSum ds + (List.replicate (MAX_FILE_SIZE_BYTES + 1)
            (0 : Nat)).length := by
  have hne : ∀ d ∈ [List.replicate (MAX_FILE_SIZE_BYTES + 1) 0], d ≠ [] := by
    intro d hd
    simp only [List.mem_singleton] at hd
    subst hd
    rw [Ne, List.replicate_eq_nil_iff]
    omega
  have hlt : MAX_FILE_SIZE_BYTES
      < 0 + chunksSum [List.replicate (MAX_FILE_SIZE_BYTES + 1) 0] := by
    rw [chunksSum_cons, List.length_replicate, chunksSum_nil]
    omega
  have hres : (enforce_file_size_loop none
      [ReadEvent.chunk (List.replicate (MAX_FILE_SIZE_BYTES + 1) 0)] 0 0 []).res
      = LoopRes.tooLarge := by
    have h := loop_overflow_of_sum [List.replicate (MAX_FILE_SIZE_BYTES + 1) 0]
      0 0 [] hne (by omega) hlt
    simpa using h
  have h := c10_limit_check_before_write none
    [ReadEvent.chunk (List.replicate (MAX_FILE_SIZE_BYTES + 1) 0)]
  obtain ⟨ds, c, rest, heq, hwr, hsle, hslt⟩ := h.2.2 hres
  refine ⟨hres, h.1, h.2.1, ds, c, rest, heq, hwr, hsle, ?_⟩
  have hcs : c = List.replicate (MAX_FILE_SIZE_BYTES + 1) 0 := by
    cases ds with
    | nil =>
      have h' : c = List.replicate (MAX_FILE_SIZE_BYTES + 1) 0 ∧ rest = [] := by
        simpa using heq.symm
      exact h'.1
    | cons d ds' => simp at heq
  rw [← hcs]
  exact hslt
